import Mathlib

/-!
Verification of the gowaybackgo CDX pipeline (config.go, main.go, runner file).

Strings are modelled as `List Char` (`Str`) so that every operation is a
structurally recursive, kernel-computable function; `str` injects Lean
string literals.  The helpers in `GoStr` are direct translations of the
Go standard-library `strings` functions used by the program, restricted
to the ASCII inputs the pipeline handles.
-/

set_option autoImplicit false

namespace GWB

abbrev Str := List Char

def str (s : String) : Str := s.data

namespace GoStr

/-- Model of Go `unicode.IsSpace` on the code points the pipeline meets
(ASCII whitespace plus NEL and NBSP). -/
def isSpace (c : Char) : Bool :=
  c = ' ' || c = '\t' || c = '\n' || c = '\x0b' || c = '\x0c' || c = '\r' ||
  c.toNat = 0x85 || c.toNat = 0xa0

/-- Model of Go `strings.TrimLeftFunc`. -/
def trimLeftP (p : Char → Bool) : Str → Str
  | [] => []
  | c :: cs => if p c then trimLeftP p cs else c :: cs

/-- Model of Go `strings.TrimRightFunc` (via reversal). -/
def trimRightP (p : Char → Bool) (s : Str) : Str :=
  (trimLeftP p s.reverse).reverse

/-- Model of Go `strings.TrimSpace`. -/
def trimSpace (s : Str) : Str :=
  trimRightP isSpace (trimLeftP isSpace s)

/-- Model of Go `strings.HasPrefix` as a Bool on char lists. -/
def hasPre : Str → Str → Bool
  | [], _ => true
  | _ :: _, [] => false
  | p :: ps, c :: cs => p = c && hasPre ps cs

/-- Model of Go `strings.TrimPrefix`: drop the marker when it leads. -/
def trimPre (s marker : Str) : Str :=
  if hasPre marker s then s.drop marker.length else s

/-- Model of Go `strings.HasSuffix`. -/
def hasSuffix (s marker : Str) : Bool :=
  hasPre marker.reverse s.reverse

/-- Model of Go `strings.TrimSuffix`. -/
def trimSuffix (s marker : Str) : Str :=
  if hasSuffix s marker then s.take (s.length - marker.length) else s

/-- Model of Go `strings.Trim` with an explicit cutset. -/
def trimCut (cutset : List Char) (s : Str) : Str :=
  trimRightP (fun c => cutset.contains c) (trimLeftP (fun c => cutset.contains c) s)

/-- Go `s[:strings.IndexAny(s, cutset)]` guarded by `idx >= 0`: keep the
part before the first cutset character (the whole string when none occurs). -/
def cutAtAny (cutset : List Char) (s : Str) : Str :=
  s.takeWhile (fun c => !cutset.contains c)

/-- Model of Go `strings.ReplaceAll(s, one-char, "")`: remove a character. -/
def removeChar (x : Char) (s : Str) : Str :=
  s.filter (fun c => c ≠ x)

/-- Model of Go `strings.ToLower` restricted to ASCII. -/
def toLower (s : Str) : Str :=
  s.map Char.toLower

/-- Accumulator form of Go `strings.FieldsFunc`: maximal nonempty runs of
characters not satisfying the separator predicate. -/
def fieldsAux (p : Char → Bool) (cur : Str) : Str → List Str
  | [] => if cur.isEmpty then [] else [cur.reverse]
  | c :: cs =>
    if p c then
      if cur.isEmpty then fieldsAux p [] cs else cur.reverse :: fieldsAux p [] cs
    else
      fieldsAux p (c :: cur) cs

/-- Model of Go `strings.FieldsFunc`. -/
def fieldsFunc (p : Char → Bool) (s : Str) : List Str :=
  fieldsAux p [] s

/-- Accumulator form of Go `strings.Split` on a single-character
separator (empty fields are kept). -/
def splitChAux (sep : Char) (cur : Str) : Str → List Str
  | [] => [cur.reverse]
  | c :: cs => if c = sep then cur.reverse :: splitChAux sep [] cs else splitChAux sep (c :: cur) cs

/-- Model of Go `strings.Split(s, one-char separator)`. -/
def splitCh (sep : Char) (s : Str) : List Str :=
  splitChAux sep [] s

def isDigit (c : Char) : Bool := '0' ≤ c && c ≤ '9'

def digitsVal : Str → Option Nat
  | [] => none
  | [c] => if isDigit c then some (c.toNat - '0'.toNat) else none
  | c :: cs =>
    if isDigit c then
      match digitsVal cs with
      | some n => some ((c.toNat - '0'.toNat) * 10 ^ cs.length + n)
      | none => none
    else none

/-- Model of Go `strconv.Atoi`: optional sign, then decimal digits
(overflow ignored: the page counts in play are small). -/
def atoi : Str → Option Int
  | [] => none
  | '+' :: rest => (digitsVal rest).map Int.ofNat
  | '-' :: rest => (digitsVal rest).map (fun n => -(Int.ofNat n))
  | s => (digitsVal s).map Int.ofNat

def isHexDigit (c : Char) : Bool :=
  isDigit c || ('a' ≤ c && c ≤ 'f') || ('A' ≤ c && c ≤ 'F')

def hexVal (c : Char) : Nat :=
  if isDigit c then c.toNat - '0'.toNat
  else if 'a' ≤ c && c ≤ 'f' then c.toNat - 'a'.toNat + 10
  else c.toNat - 'A'.toNat + 10

/-- Model of Go `url.QueryUnescape` on ASCII data: percent-escapes decode
to the escaped byte, `+` decodes to space, a malformed escape fails. -/
def queryUnescape : Str → Option Str
  | [] => some []
  | '%' :: a :: b :: rest =>
    if isHexDigit a && isHexDigit b then
      (queryUnescape rest).map (fun t => Char.ofNat (16 * hexVal a + hexVal b) :: t)
    else none
  | ['%'] => none
  | ['%', _] => none
  | '+' :: rest => (queryUnescape rest).map (fun t => ' ' :: t)
  | c :: rest => (queryUnescape rest).map (fun t => c :: t)

end GoStr

open GoStr

/-- Go `net/url.URL`, restricted to the components this program reads or
writes.  The path is kept in raw (still-escaped) form, which agrees with
`u.String()` re-serialization for inputs whose escaping is valid. -/
structure URL where
  scheme : Str
  host : Str
  path : Str
  rawQuery : Str
  deriving DecidableEq, Repr

/-- A URL control character per Go `net/url` (rejects the parse). -/
def isCtl (c : Char) : Bool := c.toNat < 0x20 || c.toNat = 0x7f

def isSchemeChar (c : Char) : Bool :=
  ('a' ≤ c && c ≤ 'z') || ('A' ≤ c && c ≤ 'Z') || isDigit c || c = '+' || c = '-' || c = '.'

/-- Split at the first occurrence of the literal marker `://`. -/
def splitSchemeAux : Str → Option (Str × Str)
  | ':' :: '/' :: '/' :: rest => some ([], rest)
  | c :: cs =>
    match splitSchemeAux cs with
    | some (sch, rest) => some (c :: sch, rest)
    | none => none
  | [] => none

/-- A percent sign must be followed by two hex digits (Go validates path
escapes and rejects the URL otherwise; the raw query is not validated). -/
def validEscapes : Str → Bool
  | [] => true
  | '%' :: a :: b :: rest => isHexDigit a && isHexDigit b && validEscapes rest
  | ['%'] => false
  | ['%', _] => false
  | _ :: rest => validEscapes rest

/-- Model of Go `url.Parse` for the absolute `scheme://host/path?query`
and scheme-less relative forms the CDX records take.  Parsing fails on
control characters and on invalid percent-escapes in the path, as in Go;
userinfo, fragments and non-ASCII hosts are outside the model. -/
def urlParse (s : Str) : Option URL :=
  if s.any isCtl then none
  else
    match splitSchemeAux s with
    | some (sch, rest) =>
      if sch ≠ [] && sch.all isSchemeChar then
        let host := rest.takeWhile (fun c => c ≠ '/' && c ≠ '?')
        let afterHost := rest.dropWhile (fun c => c ≠ '/' && c ≠ '?')
        let path := afterHost.takeWhile (fun c => c ≠ '?')
        let query := (afterHost.dropWhile (fun c => c ≠ '?')).drop 1
        if validEscapes path then some ⟨sch, host, path, query⟩ else none
      else
        let path := s.takeWhile (fun c => c ≠ '?')
        let query := (s.dropWhile (fun c => c ≠ '?')).drop 1
        if validEscapes path then some ⟨[], [], path, query⟩ else none
    | none =>
      let path := s.takeWhile (fun c => c ≠ '?')
      let query := (s.dropWhile (fun c => c ≠ '?')).drop 1
      if validEscapes path then some ⟨[], [], path, query⟩ else none

/-- Model of Go `(*url.URL).String()` on the shapes `urlParse` produces. -/
def urlString (u : URL) : Str :=
  (if u.scheme.isEmpty then [] else u.scheme ++ str "://" ++ u.host) ++
  u.path ++
  (if u.rawQuery.isEmpty then [] else '?' :: u.rawQuery)

/-- The mode flags of `Config` (config.go) that the pipeline reads. -/
structure Config where
  urlPattern : Str := []
  onlyQuery : Bool := false
  onlyQueryKeys : Bool := false
  noQuery : Bool := false
  extractPaths : Bool := false
  subs : Bool := false
  deriving DecidableEq, Repr

/-- `normalizeURLForCDX` from main.go: trim, strip scheme, cut at the
first of `/`, `:`, `\`, remove `*`, trim dots and spaces; in subdomain
mode return a leading-wildcard pattern, otherwise append a trailing `*`
unless the original input already contained one (in which case the
original input is returned as-is). -/
def normalizeURLForCDX (u : Str) (subs : Bool) : Str :=
  let s := trimSpace u
  let s := trimPre s (str "http://")
  let s := trimPre s (str "https://")
  let s := cutAtAny ['/', ':', '\\'] s
  let s := removeChar '*' s
  let s := trimCut [' ', '.'] s
  if subs then str "*." ++ s
  else if !u.contains '*' then s ++ ['*']
  else u

/-- The cleaning pipeline exactly as claim C2 words it (spec side, for
comparison with `normalizeURLForCDX`): strip the scheme, strip any
path/port suffix, strip literal wildcard markers, trim stray dots and
spaces. -/
def specCleanPattern (u : Str) : Str :=
  trimCut [' ', '.']
    (removeChar '*'
      (cutAtAny ['/', ':', '\\']
        (trimPre (trimPre (trimSpace u) (str "http://")) (str "https://"))))

/-- `Config.NormalizeBaseDomain` from config.go. -/
def NormalizeBaseDomain (urlPattern : Str) : Str :=
  let b := normalizeURLForCDX urlPattern false
  let b := trimPre b (str "*.")
  let b := trimSuffix b ['*']
  trimCut [' ', '.'] b

/-- Comma-separated extension list: split, trim each token, drop empties. -/
def parseExtList (s : Str) : List Str :=
  ((splitCh ',' s).map trimSpace).filter (fun t => t ≠ [])

/-- Modelled from the spec: the matcher produced by `CompileExtRegex`,
whose defining file is not present under src/ (only its callers are).
Per spec 4.1, a path matches when it ends in `.` plus one of the listed
extensions, case-insensitively. -/
def extMatch (exts : List Str) (path : Str) : Bool :=
  exts.any (fun e => hasSuffix (toLower path) ('.' :: toLower e))

/-- Modelled from the spec: `CompileExtRegex` (file missing from src/).
A non-empty include list wins and sets include mode; otherwise a
non-empty exclude list compiles in exclude mode; otherwise no matcher. -/
def CompileExtRegex (includeExt excludeExt : Str) : Option (List Str) × Bool :=
  let inc := parseExtList includeExt
  let exc := parseExtList excludeExt
  if inc ≠ [] then (some inc, true)
  else if exc ≠ [] then (some exc, false)
  else (none, false)

/-- The fields of `Runner` (runner file) that `processLine` reads. -/
structure Runner where
  cfg : Config
  extRegex : Option (List Str) := none
  includeMode : Bool := false
  baseDomain : Str := []
  deriving DecidableEq, Repr

/-- Runner filter state as `NewRunner` builds it for include list `json`. -/
def includeJsonRunner : Runner :=
  ⟨{}, (CompileExtRegex (str "json") (str "")).1, (CompileExtRegex (str "json") (str "")).2, []⟩

/-- Runner filter state as `NewRunner` builds it for exclude list `png`. -/
def excludePngRunner : Runner :=
  ⟨{}, (CompileExtRegex (str "") (str "png")).1, (CompileExtRegex (str "") (str "png")).2, []⟩

/-- Runner filter state as `NewRunner` builds it when neither extension list is configured. -/
def noFilterRunner : Runner :=
  ⟨{}, (CompileExtRegex (str "") (str "")).1, (CompileExtRegex (str "") (str "")).2, []⟩

/-- One pair of the raw query, as handled inside `processLine`'s
only-query-keys loop: skip empty pairs, take the part before the first
`=`, skip it when empty, percent-decode keeping the raw form on failure. -/
def keyOfPair (p : Str) : Option Str :=
  if p = [] then none
  else
    let k := p.takeWhile (fun c => c ≠ '=')
    if k = [] then none
    else some (match queryUnescape k with | some un => un | none => k)

/-- The only-query-keys extraction loop of `processLine`. -/
def extractKeys (rawQuery : Str) : List Str :=
  (fieldsFunc (fun c => c = '&' || c = ';') rawQuery).filterMap keyOfPair

/-- Key extraction as claim C6 words it, amended with the empty-key skip
(spec side, for comparison with `extractKeys`): split on `&` or `;`,
take the part before the first `=`, skip empty keys, percent-decode
keeping the raw form on failure. -/
def specExtractKeys (rq : Str) : List Str :=
  (fieldsFunc (fun c => c = '&' || c = ';') rq).filterMap (fun p =>
    let k := p.takeWhile (fun c => c ≠ '=')
    if k = [] then none
    else some (match queryUnescape k with | some un => un | none => k))

/-- `Runner.processLine` from the runner file: trim, drop blanks, parse
as URL (the raw line doubles as the path when parsing fails or the path
is empty), apply the extension filter, then the first applicable of
only-query, only-query-keys, no-query, default pass-through. -/
def processLine (r : Runner) (line0 : Str) : List Str :=
  let line := trimSpace line0
  if line = [] then []
  else
    let pu := urlParse line
    let path :=
      match pu with
      | some u => if u.path ≠ [] then u.path else line
      | none => line
    let dropByExt :=
      match r.extRegex with
      | some exts =>
        let m := extMatch exts path
        (r.includeMode && !m) || (!r.includeMode && m)
      | none => false
    if dropByExt then []
    else if r.cfg.onlyQuery then
      match pu with
      | some u => if u.rawQuery ≠ [] then [u.rawQuery] else []
      | none => []
    else if r.cfg.onlyQueryKeys then
      match pu with
      | some u => if u.rawQuery ≠ [] then extractKeys u.rawQuery else []
      | none => []
    else if r.cfg.noQuery then
      match pu with
      | some u => [urlString { u with rawQuery := [] }]
      | none => [line]
    else [line]

/-- First non-blank line of a response body, trimmed (`""` when none),
as scanned by `fetchPageCount`. -/
def firstNonBlank : List Str → Str
  | [] => []
  | l :: ls =>
    let t := trimSpace l
    if t ≠ [] then t else firstNonBlank ls

/-- The body-interpretation step of `Runner.fetchPageCount`: page count
plus whether the parse-failure warning was emitted.  (The transport and
scanner error paths abort with an error before this step and are outside
the model.) -/
def resolvePageCount (body : List Str) : Int × Bool :=
  let numStr := firstNonBlank body
  if numStr = [] then (0, false)
  else
    match atoi numStr with
    | some n => (n, false)
    | none => (1, true)

/-- Outcome of one transport attempt: an error, or a response carrying a
status code. -/
inductive Attempt where
  | transportErr
  | resp (status : Nat)
  deriving DecidableEq, Repr

/-- The success test of `fetchWithRetry`: no transport error and 2xx. -/
def attemptOK : Attempt → Bool
  | .transportErr => false
  | .resp s => decide (200 ≤ s ∧ s < 300)

def statusOf : Attempt → Option Nat
  | .transportErr => none
  | .resp s => some s

def hasResp : Attempt → Bool
  | .transportErr => false
  | .resp _ => true

/-- Observable trace of `fetchWithRetry`: the returned status (if any),
attempts made, the sleep durations in order, body closes, warnings. -/
structure RetryTrace where
  result : Option Nat
  attempts : Nat
  sleeps : List Nat
  closes : Nat
  warns : Nat
  deriving DecidableEq, Repr

/-- The retry loop of `Runner.fetchWithRetry`; `env i` is what the i-th
attempt's `client.Do` would produce.  On failure the body (when a
response exists) is closed, a warning is logged and the worker sleeps
`attempt` seconds before the next try. -/
def runRetry (env : Nat → Attempt) (a : Nat) : Nat → RetryTrace
  | 0 => ⟨none, 0, [], 0, 0⟩
  | fuel + 1 =>
    if attemptOK (env a) then ⟨statusOf (env a), 1, [], 0, 0⟩
    else
      let t := runRetry env (a + 1) fuel
      ⟨t.result, t.attempts + 1, a :: t.sleeps,
        (if hasResp (env a) then 1 else 0) + t.closes, 1 + t.warns⟩

def maxRetries : Nat := 3

/-- `Runner.fetchWithRetry`: attempts numbered from 1, at most 3. -/
def fetchWithRetry (env : Nat → Attempt) : RetryTrace :=
  runRetry env 1 maxRetries

/-- Result of handling one page index in `startPageFetchers`: retries
exhausted, or a body whose lines are drained (possibly with a scanner
warning). -/
inductive PageResult where
  | failed
  | ok (lines : List Str) (readErr : Bool)
  deriving DecidableEq, Repr

/-- One iteration of the fetcher loop of `startPageFetchers`: both the
exhausted-retries branch and the drain branch bump the progress counter
exactly once; drained lines are trimmed, blanks dropped. -/
def fetchPage (counter : Nat) (pr : PageResult) : Nat × List Str :=
  match pr with
  | .failed => (counter + 1, [])
  | .ok lines _ =>
    (counter + 1,
      lines.filterMap (fun l => let t := trimSpace l; if t = [] then none else some t))

/-- A fetcher consuming its share of page indices (the run uses
`context.Background()`, whose `Err()` is always nil, so the cancellation
early-return never fires and is not modelled). -/
def fetcherLoop (counter : Nat) : List PageResult → Nat × List Str
  | [] => (counter, [])
  | p :: ps =>
    let step := fetchPage counter p
    let rest := fetcherLoop step.1 ps
    (rest.1, step.2 ++ rest.2)

/-- `Runner.printDefault`: dedup on the exact string, first occurrence
written. -/
def printDefault (seen : List Str) : List Str → List Str
  | [] => []
  | r :: rs =>
    if r ∈ seen then printDefault seen rs
    else r :: printDefault (r :: seen) rs

/-- The per-value test of `printSubdomains`: parse, strip any port from
the host, trim and lower-case it, drop empty hosts and the base domain
itself, keep strict subdomains only. -/
def subHostKey (baseLower : Str) (res : Str) : Option Str :=
  match urlParse res with
  | none => none
  | some u =>
    let host := u.host.takeWhile (fun c => c ≠ ':')
    let host := toLower (trimSpace host)
    if host = [] || host = baseLower then none
    else if hasSuffix host ('.' :: baseLower) then some host
    else none

def printSubdomainsLoop (baseLower : Str) (seen : List Str) : List Str → List Str
  | [] => []
  | res :: rs =>
    match subHostKey baseLower res with
    | none => printSubdomainsLoop baseLower seen rs
    | some host =>
      if host ∈ seen then printSubdomainsLoop baseLower seen rs
      else host :: printSubdomainsLoop baseLower (host :: seen) rs

/-- `Runner.printSubdomains`: no-op when no base domain was derived. -/
def printSubdomains (baseDomain : Str) (results : List Str) : List Str :=
  if baseDomain = [] then [] else printSubdomainsLoop (toLower baseDomain) [] results

/-- The inner segment loop of `printPaths`: trim each segment, skip
empties and already-seen segments; returns emitted segments and the
updated seen set. -/
def printPathsSegs (seen : List Str) : List Str → List Str × List Str
  | [] => ([], seen)
  | s :: ss =>
    let seg := trimSpace s
    if seg = [] then printPathsSegs seen ss
    else if seg ∈ seen then printPathsSegs seen ss
    else
      let rest := printPathsSegs (seg :: seen) ss
      (seg :: rest.1, rest.2)

/-- `Runner.printPaths`: parse each value, skip parse failures and empty
paths, split the path on `/` and emit unseen trimmed segments. -/
def printPaths (seen : List Str) : List Str → List Str
  | [] => []
  | res :: rs =>
    match urlParse res with
    | none => printPaths seen rs
    | some u =>
      if u.path = [] then printPaths seen rs
      else
        let step := printPathsSegs seen (splitCh '/' u.path)
        step.1 ++ printPaths step.2 rs

/-- The sink dispatch of `Runner.startPrinter`: subdomains mode first,
then extract-paths, then the default dedup. -/
def startPrinter (cfg : Config) (baseDomain : Str) (results : List Str) : List Str :=
  if cfg.subs then printSubdomains baseDomain results
  else if cfg.extractPaths then printPaths [] results
  else printDefault [] results

/-! ### Dedup invariants of the sink loops -/

lemma printDefault_mem (rs : List Str) : ∀ (seen : List Str) (x : Str),
    x ∈ printDefault seen rs ↔ x ∈ rs ∧ x ∉ seen := by
  induction rs with
  | nil => intro seen x; simp [printDefault]
  | cons r rs ih =>
    intro seen x
    by_cases h : r ∈ seen
    · simp only [printDefault, if_pos h, ih]
      constructor
      · rintro ⟨hx, hs⟩; exact ⟨List.mem_cons_of_mem _ hx, hs⟩
      · rintro ⟨hx, hs⟩
        rcases List.mem_cons.1 hx with rfl | hx'
        · exact absurd h hs
        · exact ⟨hx', hs⟩
    · simp only [printDefault, if_neg h, List.mem_cons, ih]
      constructor
      · rintro (rfl | ⟨hx, hs⟩)
        · exact ⟨Or.inl rfl, h⟩
        · exact ⟨Or.inr hx, fun hxs => hs (Or.inr hxs)⟩
      · rintro ⟨rfl | hx, hs⟩
        · exact Or.inl rfl
        · by_cases hxr : x = r
          · exact Or.inl hxr
          · exact Or.inr ⟨hx, fun hxs => hxs.elim hxr hs⟩

lemma printDefault_nodup (rs : List Str) : ∀ seen : List Str, (printDefault seen rs).Nodup := by
  induction rs with
  | nil => intro seen; simp [printDefault]
  | cons r rs ih =>
    intro seen
    by_cases h : r ∈ seen
    · simp only [printDefault, if_pos h]; exact ih seen
    · simp only [printDefault, if_neg h]
      refine List.nodup_cons.2 ⟨?_, ih (r :: seen)⟩
      intro hmem
      exact ((printDefault_mem rs (r :: seen) r).1 hmem).2 (List.mem_cons_self r seen)

lemma printDefault_sublist (rs : List Str) : ∀ seen, (printDefault seen rs).Sublist rs := by
  induction rs with
  | nil => intro seen; simp [printDefault]
  | cons r rs ih =>
    intro seen
    by_cases h : r ∈ seen
    · simp only [printDefault, if_pos h]; exact List.Sublist.cons r (ih seen)
    · simp only [printDefault, if_neg h]; exact List.Sublist.cons₂ r (ih (r :: seen))

lemma subHostKey_suffix {base res h : Str} (hk : subHostKey base res = some h) :
    hasSuffix h ('.' :: base) = true := by
  unfold subHostKey at hk
  cases hp : urlParse res with
  | none => rw [hp] at hk; simp at hk
  | some u =>
    rw [hp] at hk
    simp only at hk
    split at hk
    · simp at hk
    · split at hk
      · next hcond => obtain rfl := Option.some.inj hk; exact hcond
      · simp at hk

lemma printSubsLoop_suffix (base : Str) (rs : List Str) : ∀ seen x,
    x ∈ printSubdomainsLoop base seen rs → hasSuffix x ('.' :: base) = true := by
  induction rs with
  | nil => intro seen x hx; simp [printSubdomainsLoop] at hx
  | cons res rs ih =>
    intro seen x hx
    cases hk : subHostKey base res with
    | none =>
      simp only [printSubdomainsLoop, hk] at hx
      exact ih seen x hx
    | some host =>
      simp only [printSubdomainsLoop, hk] at hx
      by_cases hmem : host ∈ seen
      · rw [if_pos hmem] at hx; exact ih seen x hx
      · rw [if_neg hmem] at hx
        rcases List.mem_cons.1 hx with rfl | hx'
        · exact subHostKey_suffix hk
        · exact ih (host :: seen) x hx'

lemma printSubsLoop_mem_seen (base : Str) (rs : List Str) : ∀ seen x,
    x ∈ printSubdomainsLoop base seen rs → x ∉ seen := by
  induction rs with
  | nil => intro seen x hx; simp [printSubdomainsLoop] at hx
  | cons res rs ih =>
    intro seen x hx
    cases hk : subHostKey base res with
    | none =>
      simp only [printSubdomainsLoop, hk] at hx
      exact ih seen x hx
    | some host =>
      simp only [printSubdomainsLoop, hk] at hx
      by_cases hmem : host ∈ seen
      · rw [if_pos hmem] at hx; exact ih seen x hx
      · rw [if_neg hmem] at hx
        rcases List.mem_cons.1 hx with rfl | hx'
        · exact hmem
        · intro hxs
          exact ih (host :: seen) x hx' (List.mem_cons_of_mem _ hxs)

lemma printSubsLoop_nodup (base : Str) (rs : List Str) : ∀ seen,
    (printSubdomainsLoop base seen rs).Nodup := by
  induction rs with
  | nil => intro seen; simp [printSubdomainsLoop]
  | cons res rs ih =>
    intro seen
    cases hk : subHostKey base res with
    | none => simp only [printSubdomainsLoop, hk]; exact ih seen
    | some host =>
      simp only [printSubdomainsLoop, hk]
      by_cases hmem : host ∈ seen
      · rw [if_pos hmem]; exact ih seen
      · rw [if_neg hmem]
        refine List.nodup_cons.2 ⟨?_, ih (host :: seen)⟩
        intro hx
        exact printSubsLoop_mem_seen base rs (host :: seen) host hx
          (List.mem_cons_self host seen)

lemma printPathsSegs_seen (ss : List Str) : ∀ seen x,
    x ∈ (printPathsSegs seen ss).2 ↔ x ∈ seen ∨ x ∈ (printPathsSegs seen ss).1 := by
  induction ss with
  | nil => intro seen x; simp [printPathsSegs]
  | cons s ss ih =>
    intro seen x
    by_cases h0 : trimSpace s = []
    · simp only [printPathsSegs, if_pos h0]; exact ih seen x
    · by_cases h1 : trimSpace s ∈ seen
      · simp only [printPathsSegs, if_neg h0, if_pos h1]; exact ih seen x
      · simp only [printPathsSegs, if_neg h0, if_neg h1, List.mem_cons]
        rw [ih (trimSpace s :: seen) x]
        simp only [List.mem_cons]
        tauto

lemma printPathsSegs_mem_seen (ss : List Str) : ∀ seen x,
    x ∈ (printPathsSegs seen ss).1 → x ∉ seen := by
  induction ss with
  | nil => intro seen x hx; simp [printPathsSegs] at hx
  | cons s ss ih =>
    intro seen x hx
    by_cases h0 : trimSpace s = []
    · simp only [printPathsSegs, if_pos h0] at hx; exact ih seen x hx
    · by_cases h1 : trimSpace s ∈ seen
      · simp only [printPathsSegs, if_neg h0, if_pos h1] at hx; exact ih seen x hx
      · simp only [printPathsSegs, if_neg h0, if_neg h1, List.mem_cons] at hx
        rcases hx with rfl | hx'
        · exact h1
        · intro hxs
          exact ih (trimSpace s :: seen) x hx' (List.mem_cons_of_mem _ hxs)

lemma printPathsSegs_nodup (ss : List Str) : ∀ seen,
    (printPathsSegs seen ss).1.Nodup := by
  induction ss with
  | nil => intro seen; simp [printPathsSegs]
  | cons s ss ih =>
    intro seen
    by_cases h0 : trimSpace s = []
    · simp only [printPathsSegs, if_pos h0]; exact ih seen
    · by_cases h1 : trimSpace s ∈ seen
      · simp only [printPathsSegs, if_neg h0, if_pos h1]; exact ih seen
      · simp only [printPathsSegs, if_neg h0, if_neg h1]
        refine List.nodup_cons.2 ⟨?_, ih (trimSpace s :: seen)⟩
        intro hx
        exact printPathsSegs_mem_seen ss (trimSpace s :: seen) (trimSpace s) hx
          (List.mem_cons_self _ seen)

lemma printPaths_mem_seen (rs : List Str) : ∀ seen x,
    x ∈ printPaths seen rs → x ∉ seen := by
  induction rs with
  | nil => intro seen x hx; simp [printPaths] at hx
  | cons res rs ih =>
    intro seen x hx
    cases hp : urlParse res with
    | none =>
      simp only [printPaths, hp] at hx
      exact ih seen x hx
    | some u =>
      simp only [printPaths, hp] at hx
      by_cases hpath : u.path = []
      · rw [if_pos hpath] at hx; exact ih seen x hx
      · rw [if_neg hpath] at hx
        rcases List.mem_append.1 hx with hx' | hx'
        · exact printPathsSegs_mem_seen _ seen x hx'
        · intro hxs
          have hx2 := ih _ x hx'
          exact hx2 ((printPathsSegs_seen _ seen x).2 (Or.inl hxs))

lemma printPaths_nodup (rs : List Str) : ∀ seen,
    (printPaths seen rs).Nodup := by
  induction rs with
  | nil => intro seen; simp [printPaths]
  | cons res rs ih =>
    intro seen
    cases hp : urlParse res with
    | none => simp only [printPaths, hp]; exact ih seen
    | some u =>
      simp only [printPaths, hp]
      by_cases hpath : u.path = []
      · rw [if_pos hpath]; exact ih seen
      · rw [if_neg hpath]
        rw [List.nodup_append]
        refine ⟨printPathsSegs_nodup _ seen, ih _, ?_⟩
        intro x hx1 hx2
        have hseen : x ∈ (printPathsSegs seen (splitCh '/' u.path)).2 :=
          (printPathsSegs_seen _ seen x).2 (Or.inr hx1)
        exact printPaths_mem_seen rs _ x hx2 hseen

/-! ### Further helper lemmas -/

lemma firstNonBlank_all_blank :
    ∀ body : List Str, (∀ l, l ∈ body → trimSpace l = []) → firstNonBlank body = [] := by
  intro body
  induction body with
  | nil => intro _; rfl
  | cons l ls ih =>
    intro hb
    simp only [firstNonBlank]
    rw [hb l (List.mem_cons_self l ls)]
    simpa using ih (fun x hx => hb x (List.mem_cons_of_mem _ hx))

lemma keyOfPair_eq_spec : ∀ p : Str,
    keyOfPair p = (fun p : Str =>
      let k := p.takeWhile (fun c => c ≠ '=')
      if k = [] then none
      else some (match queryUnescape k with | some un => un | none => k)) p := by
  intro p
  by_cases h : p = []
  · subst h; rfl
  · simp only [keyOfPair, if_neg h]

/-! ### Claims -/

/-- Claim C1 counterexample: in no-query mode a line that fails to parse
as a URL (here because of an embedded control character) is passed
through as raw text by `processLine`, not dropped as the claim states. -/
theorem C1_noquery_counterexample :
    urlParse ('h' :: Char.ofNat 1 :: str "ttp://x") = none ∧
    processLine { cfg := { noQuery := true } } ('h' :: Char.ofNat 1 :: str "ttp://x") =
      [('h' :: Char.ofNat 1 :: str "ttp://x")] ∧
    ('h' :: Char.ofNat 1 :: str "ttp://x") ≠ ([] : Str) := by decide

/-- Claim C1 (amended): in no-query mode, a (trimmed, non-blank) line
that parses as a URL is emitted exactly once, re-serialized with its
query component cleared; a line that fails to parse is passed through as
raw text (the default behavior), not dropped. -/
theorem C1_noquery_amended :
    ∀ line : Str, trimSpace line = line → line ≠ [] →
      (∀ u, urlParse line = some u →
        processLine { cfg := { noQuery := true } } line =
          [urlString { u with rawQuery := [] }]) ∧
      (urlParse line = none →
        processLine { cfg := { noQuery := true } } line = [line]) := by
  intro line htrim hne
  constructor
  · intro u hu
    simp [processLine, htrim, hne, hu]
  · intro hu
    simp [processLine, htrim, hne, hu]

theorem C1_noquery_witness :
    processLine { cfg := { noQuery := true } } (str "http://h/p?x=1") = [str "http://h/p"] := by
  have h := (C1_noquery_amended (str "http://h/p?x=1") (by decide) (by decide)).1
    ⟨str "http", str "h", str "/p", str "x=1"⟩ (by decide)
  exact h.trans (by decide)

/-- Claim C2 counterexample: when the input already contains a wildcard
and subdomain mode is off, `normalizeURLForCDX` returns the original
input verbatim — the scheme is not stripped. -/
theorem C2_normalize_counterexample :
    normalizeURLForCDX (str "http://example.com*") false = str "http://example.com*" ∧
    hasPre (str "http://") (normalizeURLForCDX (str "http://example.com*") false) = true := by
  decide

/-- Claim C2 (amended): in subdomain mode the cleaned pattern (scheme,
path/port, wildcards stripped; dots/spaces trimmed) gets a leading
wildcard label; without subdomain mode a trailing wildcard is appended
to the cleaned pattern when the input has none, and the input is
returned verbatim (uncleaned) when it already contains a wildcard. -/
theorem C2_normalize_amended :
    ∀ u : Str,
      normalizeURLForCDX u true = str "*." ++ specCleanPattern u ∧
      (u.contains '*' = false →
        normalizeURLForCDX u false = specCleanPattern u ++ ['*']) ∧
      (u.contains '*' = true → normalizeURLForCDX u false = u) := by
  intro u
  refine ⟨rfl, ?_, ?_⟩
  · intro h
    unfold normalizeURLForCDX specCleanPattern
    rw [h]
    rfl
  · intro h
    unfold normalizeURLForCDX
    rw [h]
    rfl

theorem C2_normalize_witness :
    normalizeURLForCDX (str "example.com") false = str "example.com*" ∧
    normalizeURLForCDX (str "*.example.com") false = str "*.example.com" := by
  constructor
  · exact ((C2_normalize_amended (str "example.com")).2.1 (by decide)).trans (by decide)
  · exact (C2_normalize_amended (str "*.example.com")).2.2 (by decide)

/-- Claim C3: in every output mode no two identical values (under that
mode's dedup key) are ever written in one run: the default sink's output
has no duplicate strings and is the first-occurrence subsequence of its
input containing every input value, the subdomain sink's output has no
duplicate lower-cased hosts, and the path sink's output has no duplicate
segments. -/
theorem C3_dedup_never_written_twice :
    ∀ (results : List Str) (baseDomain : Str),
      (printDefault [] results).Nodup ∧
      (printSubdomains baseDomain results).Nodup ∧
      (printPaths [] results).Nodup ∧
      (printDefault [] results).Sublist results ∧
      (∀ x, x ∈ printDefault [] results ↔ x ∈ results) := by
  intro results base
  refine ⟨printDefault_nodup results [], ?_, printPaths_nodup results [],
    printDefault_sublist results [], ?_⟩
  · unfold printSubdomains
    by_cases hb : base = []
    · simp [hb]
    · rw [if_neg hb]; exact printSubsLoop_nodup _ results []
  · intro x
    rw [printDefault_mem]
    simp

/-- Claim C4 counterexample: the body line `-5` fails to parse as a
non-negative integer, yet the resolver returns -5 pages with no warning
instead of the claimed one page with a warning. -/
theorem C4_pagecount_counterexample :
    resolvePageCount [str "-5"] = (-5, false) ∧
    resolvePageCount [str "-5"] ≠ (1, true) ∧
    (-5 : Int) < 0 := by decide

/-- Claim C4 (amended): a body with no non-blank line resolves to zero
pages with no warning (a benign no-op); a first non-blank line that
fails to parse as an integer at all resolves to exactly one page with a
warning.  (A parseable negative integer such as `-5` is returned as-is
with no warning, which is why the claim's "non-negative" wording fails.) -/
theorem C4_pagecount_amended :
    (∀ body : List Str, (∀ l, l ∈ body → trimSpace l = []) →
      resolvePageCount body = (0, false)) ∧
    (∀ body : List Str, firstNonBlank body ≠ [] → atoi (firstNonBlank body) = none →
      resolvePageCount body = (1, true)) := by
  constructor
  · intro body hb
    simp [resolvePageCount, firstNonBlank_all_blank body hb]
  · intro body h1 h2
    simp [resolvePageCount, h1, h2]

theorem C4_pagecount_witness :
    resolvePageCount [str "  "] = (0, false) ∧
    resolvePageCount [str "12a"] = (1, true) := by
  constructor
  · exact C4_pagecount_amended.1 [str "  "] (by decide)
  · exact C4_pagecount_amended.2 [str "12a"] (by decide) (by decide)

/-- Claim C5: the retry loop makes at most 3 attempts; an attempt
succeeds exactly when the transport yields a response with a 2xx status;
each failed attempt closes the response body when one exists, surfaces
one warning, and sleeps attemptNumber time units (1, then 2, then 3). -/
theorem C5_retry_policy :
    ∀ env : Nat → Attempt,
      (fetchWithRetry env).attempts ≤ 3 ∧
      (attemptOK (env 1) = true →
        fetchWithRetry env = ⟨statusOf (env 1), 1, [], 0, 0⟩) ∧
      (attemptOK (env 1) = false → attemptOK (env 2) = true →
        fetchWithRetry env =
          ⟨statusOf (env 2), 2, [1], if hasResp (env 1) then 1 else 0, 1⟩) ∧
      (attemptOK (env 1) = false → attemptOK (env 2) = false → attemptOK (env 3) = true →
        fetchWithRetry env =
          ⟨statusOf (env 3), 3, [1, 2],
            (if hasResp (env 1) then 1 else 0) + (if hasResp (env 2) then 1 else 0), 2⟩) ∧
      (attemptOK (env 1) = false → attemptOK (env 2) = false → attemptOK (env 3) = false →
        fetchWithRetry env =
          ⟨none, 3, [1, 2, 3],
            (if hasResp (env 1) then 1 else 0) + (if hasResp (env 2) then 1 else 0) +
              (if hasResp (env 3) then 1 else 0), 3⟩) := by
  intro env
  cases h1 : attemptOK (env 1) <;> cases h2 : attemptOK (env 2) <;>
    cases h3 : attemptOK (env 3) <;>
      simp +arith [fetchWithRetry, maxRetries, runRetry, h1, h2, h3]

theorem C5_retry_policy_witness :
    fetchWithRetry (fun i => if i = 2 then Attempt.resp 204 else Attempt.transportErr) =
      ⟨some 204, 2, [1], 0, 1⟩ := by
  have h := (C5_retry_policy
    (fun i => if i = 2 then Attempt.resp 204 else Attempt.transportErr)).2.2.1
    (by decide) (by decide)
  exact h.trans (by decide)

/-- Claim C6 counterexample: on raw query `=1&a=2` the pair `=1` is
non-empty and its before-`=` substring is the empty key; the claim would
have it emitted, but `processLine` skips empty keys and emits only `a`. -/
theorem C6_keys_counterexample :
    processLine { cfg := { onlyQueryKeys := true } } (str "http://h/p?=1&a=2") = [str "a"] ∧
    fieldsFunc (fun c => c = '&' || c = ';') (str "=1&a=2") = [str "=1", str "a=2"] ∧
    (str "=1").takeWhile (fun c => c ≠ '=') = ([] : Str) ∧
    str "=1" ≠ ([] : Str) := by decide

/-- Claim C6 (amended): in only-query-keys mode, for a (trimmed,
non-blank) line parsing to a URL with a non-empty raw query, the emitted
keys are obtained by splitting the raw query on `&` or `;`, taking for
each non-empty pair the substring before the first `=` (or the whole
pair), skipping pairs whose key is empty, percent-decoding with the raw
form kept on failure, duplicates included; on `http://h/p?a=1&b=2&a=3`
this yields `a, b, a`, and the downstream default dedup leaves `a, b` in
first-occurrence order. -/
theorem C6_keys_amended :
    (∀ rq : Str, extractKeys rq = specExtractKeys rq) ∧
    (∀ (line : Str) (u : URL), trimSpace line = line → line ≠ [] →
      urlParse line = some u → u.rawQuery ≠ [] →
      processLine { cfg := { onlyQueryKeys := true } } line = extractKeys u.rawQuery) ∧
    processLine { cfg := { onlyQueryKeys := true } } (str "http://h/p?a=1&b=2&a=3") =
      [str "a", str "b", str "a"] ∧
    printDefault [] [str "a", str "b", str "a"] = [str "a", str "b"] := by
  refine ⟨?_, ?_, by decide, by decide⟩
  · intro rq
    unfold extractKeys specExtractKeys
    rw [show keyOfPair = (fun p : Str =>
      let k := p.takeWhile (fun c => c ≠ '=')
      if k = [] then none
      else some (match queryUnescape k with | some un => un | none => k))
      from funext keyOfPair_eq_spec]
  · intro line u htrim hne hu hq
    simp [processLine, htrim, hne, hu, hq]

theorem C6_keys_witness :
    processLine { cfg := { onlyQueryKeys := true } } (str "http://h/p?a=1&b=2&a=3") =
      extractKeys (str "a=1&b=2&a=3") :=
  C6_keys_amended.2.1 (str "http://h/p?a=1&b=2&a=3")
    ⟨str "http", str "h", str "/p", str "a=1&b=2&a=3"⟩
    (by decide) (by decide) (by decide) (by decide)

/-- Claim C7: the subdomain sink parses each value, lower-cases the
port-stripped host, drops empty hosts and the base domain itself, keeps
only strict subdomains (suffix `.` + base domain) and dedups on the
lower-cased host; with base domain example.com, `http://a.example.com/x`
yields `a.example.com` while `http://example.com/x` and
`http://notexample.com/x` yield nothing. -/
theorem C7_subdomains_mode :
    NormalizeBaseDomain (str "example.com") = str "example.com" ∧
    printSubdomains (str "example.com") [str "http://a.example.com/x"] =
      [str "a.example.com"] ∧
    printSubdomains (str "example.com") [str "http://example.com/x"] = [] ∧
    printSubdomains (str "example.com") [str "http://notexample.com/x"] = [] ∧
    (∀ base results, (printSubdomains base results).Nodup) ∧
    (∀ base results x, x ∈ printSubdomains base results →
      hasSuffix x ('.' :: toLower base) = true) := by
  refine ⟨by decide, by decide, by decide, by decide, ?_, ?_⟩
  · intro base results
    unfold printSubdomains
    by_cases hb : base = []
    · simp [hb]
    · rw [if_neg hb]; exact printSubsLoop_nodup _ results []
  · intro base results x hx
    unfold printSubdomains at hx
    by_cases hb : base = []
    · rw [if_pos hb] at hx; simp at hx
    · rw [if_neg hb] at hx
      exact printSubsLoop_suffix _ results [] x hx

theorem C7_subdomains_mode_witness :
    printSubdomains (str "example.com") [str "http://a.example.com/x"] =
      [str "a.example.com"] ∧
    hasSuffix (str "a.example.com") ('.' :: toLower (str "example.com")) = true := by
  refine ⟨C7_subdomains_mode.2.1, ?_⟩
  refine C7_subdomains_mode.2.2.2.2.2 (str "example.com")
    [str "http://a.example.com/x"] (str "a.example.com") ?_
  rw [C7_subdomains_mode.2.1]
  exact List.mem_singleton_self _

/-- Claim C8: the extension filter (matcher modelled from the spec,
since `CompileExtRegex` is not among the provided sources), matching a
path that ends in `.` plus a listed extension case-insensitively, keeps
`/a/b.json` and drops `/a/b.txt` under include list json, drops `/x.png`
and keeps `/x.html` under exclude list png, and drops nothing when
neither list is configured. -/
theorem C8_extension_filter :
    processLine includeJsonRunner (str "/a/b.json") = [str "/a/b.json"] ∧
    processLine includeJsonRunner (str "/a/b.txt") = [] ∧
    processLine excludePngRunner (str "/x.png") = [] ∧
    processLine excludePngRunner (str "/x.html") = [str "/x.html"] ∧
    (∀ line : Str, trimSpace line = line → line ≠ [] →
      processLine noFilterRunner line = [line]) := by
  refine ⟨by decide, by decide, by decide, by decide, ?_⟩
  intro line htrim hne
  have hc : noFilterRunner = ⟨{}, none, false, []⟩ := by decide
  simp [processLine, htrim, hne, hc]

theorem C8_extension_filter_witness :
    processLine noFilterRunner (str "http://h/x") = [str "http://h/x"] :=
  C8_extension_filter.2.2.2.2 (str "http://h/x") (by decide) (by decide)

/-- Claim C9: every page index a fetcher consumes bumps the shared
progress counter exactly once — in the retries-exhausted branch and in
the body-drained branch alike — so a fetcher that consumes the whole
page list leaves the counter at exactly the total page count. -/
theorem C9_progress_counts_every_page :
    (∀ (c : Nat) (pr : PageResult), (fetchPage c pr).1 = c + 1) ∧
    (∀ (c : Nat) (prs : List PageResult), (fetcherLoop c prs).1 = c + prs.length) := by
  constructor
  · intro c pr; cases pr <;> rfl
  · intro c prs
    induction prs generalizing c with
    | nil => simp [fetcherLoop]
    | cons p ps ih =>
      have h1 : (fetchPage c p).1 = c + 1 := by cases p <;> rfl
      simp only [fetcherLoop, ih, h1, List.length_cons]
      omega

/-- Claim C10: with several mode flags set at once, exactly one
transform applies, with fixed precedence: in `processLine` only-query
beats only-query-keys beats no-query beats default pass-through, and in
`startPrinter` subdomains beats extract-paths beats the default dedup. -/
theorem C10_mode_precedence :
    (∀ (b2 b3 : Bool) (er : Option (List Str)) (im : Bool) (line : Str),
      processLine ⟨{ onlyQuery := true, onlyQueryKeys := b2, noQuery := b3 }, er, im, []⟩ line =
      processLine ⟨{ onlyQuery := true }, er, im, []⟩ line) ∧
    (∀ (b3 : Bool) (er : Option (List Str)) (im : Bool) (line : Str),
      processLine ⟨{ onlyQueryKeys := true, noQuery := b3 }, er, im, []⟩ line =
      processLine ⟨{ onlyQueryKeys := true }, er, im, []⟩ line) ∧
    (∀ (b : Bool) (base : Str) (results : List Str),
      startPrinter { subs := true, extractPaths := b } base results =
      printSubdomains base results) ∧
    (∀ (base : Str) (results : List Str),
      startPrinter { extractPaths := true } base results = printPaths [] results) ∧
    (∀ (base : Str) (results : List Str),
      startPrinter {} base results = printDefault [] results) := by
  refine ⟨?_, ?_, fun b base results => rfl, fun base results => rfl, fun base results => rfl⟩
  · intro b2 b3 er im line
    cases b2 <;> cases b3 <;> rfl
  · intro b3 er im line
    cases b3 <;> rfl

end GWB
